import Mathlib

/-!
Verification of the Feed State Manager of `src/script.js`, a browser social
feed demo.  The persisted collections (`posts`, `likes`, `comments`) and the
mutation operations (`createPost`, `sharePost`, `toggleLike`, `addComment`,
`saveEditComment`, `deleteComment`) are embedded shallowly: `localStorage`
becomes an explicit state record threaded through the operations,
`Date.now()` becomes an explicit `now : Nat` argument, JS exceptions become
an error value returned together with the unchanged state, and the JS
objects keyed by post id become association lists over `Nat` keys.
-/

namespace Social

/-- Embedding of JS `String.prototype.trim`: drop whitespace at both ends.
Executable by the kernel (the core `String.trim` is not), used wherever the
source calls `.trim()`. -/
def jsTrim (s : String) : String :=
  String.mk (((s.data.dropWhile Char.isWhitespace).reverse.dropWhile Char.isWhitespace).reverse)

/-- A record of the persisted `posts` array (`src/script.js` lines 241-249 and
716-725).  `createPost` stores `originalPostId: null` and no `originalUserId`
field; both absent fields are modelled as `none`.  Timestamps
(`new Date().toISOString()`) are modelled as the creation clock value. -/
structure Post where
  id : Nat
  userId : Nat
  content : String
  image : Option String
  timestamp : Nat
  isShared : Bool
  originalPostId : Option Nat
  originalUserId : Option Nat
deriving Repr, DecidableEq

/-- A record of the persisted `comments` map values (`src/script.js`
lines 539-544). -/
structure Comment where
  id : Nat
  userId : Nat
  text : String
  timestamp : Nat
deriving Repr, DecidableEq

/-- The distinct failure outcomes of the mutation operations.  The first four
are the spec's error kinds, surfaced in the source as `alert(...)` followed by
an early return; `typeError` models the uncaught JS `TypeError` thrown when
the source dereferences `undefined` (no alert, no persisted change). -/
inductive SocialError where
  | validationError
  | notFound
  | invalidOperation
  | alreadyShared
  | typeError
deriving Repr, DecidableEq

deriving instance DecidableEq for Except

/-- Lookup in a JS object keyed by post id, modelled as an association list:
`lookupL m k` is `m[k]` (`none` when the key is absent). -/
def lookupL {α : Type} : List (Nat × α) → Nat → Option α
  | [], _ => none
  | (k₀, v) :: rest, k => if k₀ = k then some v else lookupL rest k

/-- Key update in a JS object: `setL m k v` is `m[k] = v` (replaces the
binding when present, appends it otherwise). -/
def setL {α : Type} : List (Nat × α) → Nat → α → List (Nat × α)
  | [], k, v => [(k, v)]
  | (k₀, v₀) :: rest, k, v => if k₀ = k then (k₀, v) :: rest else (k₀, v₀) :: setL rest k v

/-- The whole persisted state: the `posts`, `likes` and `comments`
localStorage keys (`src/script.js` lines 48-91). -/
structure St where
  posts : List Post
  likes : List (Nat × List Nat)
  comments : List (Nat × List Comment)
deriving Repr, DecidableEq

/-- `getPosts()` as consumed by `renderFeed`: the spec's `listAll`, the
persisted order (newest first by construction). -/
def listAll (s : St) : List Post := s.posts

/-- `createPost` (`src/script.js` lines 229-264), with the DOM reads made
explicit: `raw` is the textarea value, `img` the staged `uploadedImage`,
`now` the `Date.now()` clock value, `u` the ambient `currentUserId`.
Validation failure (`!content && !uploadedImage`) aborts before any write. -/
def createPost (u : Nat) (raw : String) (img : Option String) (now : Nat) (s : St) :
    Except SocialError Post × St :=
  let content := jsTrim raw
  if content = "" ∧ img = none then
    (.error .validationError, s)
  else
    let newPost : Post :=
      { id := now, userId := u, content := content, image := img, timestamp := now,
        isShared := false, originalPostId := none, originalUserId := none }
    (.ok newPost, { s with posts := newPost :: s.posts })

/-- The duplicate-share test of `sharePost` (`src/script.js` lines 704-708):
`p.userId === currentUserId && p.isShared && p.originalPostId === originalPostId`. -/
def isShareBy (u oid : Nat) (p : Post) : Bool :=
  p.userId == u && p.isShared && p.originalPostId == some oid

/-- `sharePost` (`src/script.js` lines 688-733): find the original by id
(`NotFound` if absent), forbid self-share (`InvalidOperation`), forbid a
second share of the same original by the same user (`AlreadyShared`),
otherwise prepend a new shared post copying `content`/`image` from the found
post, with `originalUserId` its author. -/
def sharePost (u oid now : Nat) (s : St) : Except SocialError Post × St :=
  match s.posts.find? (fun p => p.id == oid) with
  | none => (.error .notFound, s)
  | some orig =>
    if orig.userId = u then
      (.error .invalidOperation, s)
    else if s.posts.any (isShareBy u oid) then
      (.error .alreadyShared, s)
    else
      let sharedPost : Post :=
        { id := now, userId := u, content := orig.content, image := orig.image,
          timestamp := now, isShared := true, originalPostId := some oid,
          originalUserId := some orig.userId }
      (.ok sharedPost, { s with posts := sharedPost :: s.posts })

/-- `toggleLike` (`src/script.js` lines 469-490): lazily create the entry,
then remove the user's first occurrence (`splice` at `indexOf`) when present,
else `push` it at the end.  `u` is the ambient `currentUserId`. -/
def toggleLike (pid u : Nat) (s : St) : St :=
  let cur := (lookupL s.likes pid).getD []
  let upd := if u ∈ cur then cur.erase u else cur ++ [u]
  { s with likes := setL s.likes pid upd }

/-- The like list of a post, as read by the rendering queries
(`likes[post.id]`, absent entries counting as empty). -/
def likeList (s : St) (pid : Nat) : List Nat := (lookupL s.likes pid).getD []

/-- `addComment` (`src/script.js` lines 522-554): validate the trimmed text,
lazily create the per-post array, append a fresh comment.  `pid` is the
ambient `currentPostId`, `u` the ambient `currentUserId`, `now` the
`Date.now()` clock value. -/
def addComment (pid u : Nat) (raw : String) (now : Nat) (s : St) :
    Except SocialError Comment × St :=
  let text := jsTrim raw
  if text = "" then
    (.error .validationError, s)
  else
    let cur := (lookupL s.comments pid).getD []
    let newComment : Comment := { id := now, userId := u, text := text, timestamp := now }
    (.ok newComment, { s with comments := setL s.comments pid (cur ++ [newComment]) })

/-- In-place text update of the first comment with the given id: the effect
of `postComments.find(c => c.id === commentId)` followed by
`comment.text = newText` in `saveEditComment`. -/
def editFirst : List Comment → Nat → String → List Comment
  | [], _, _ => []
  | c :: rest, cid, t =>
    if c.id = cid then { c with text := t } :: rest else c :: editFirst rest cid t

/-- `saveEditComment` (`src/script.js` lines 642-657): validate the trimmed
text first; then `comments[currentPostId]` is dereferenced with no guard, so
an absent post key or an absent comment id throws an uncaught `TypeError`
(`.find` of `undefined`, resp. setting `.text` of `undefined`) before
anything is persisted — there is no `NotFound` alert in the source. -/
def saveEditComment (pid cid : Nat) (rawNew : String) (s : St) :
    Except SocialError Unit × St :=
  let newText := jsTrim rawNew
  if newText = "" then
    (.error .validationError, s)
  else
    match lookupL s.comments pid with
    | none => (.error .typeError, s)
    | some postComments =>
      match postComments.find? (fun c => c.id == cid) with
      | none => (.error .typeError, s)
      | some _ =>
        (.ok (), { s with comments := setL s.comments pid (editFirst postComments cid newText) })

/-- Removal of the first comment with the given id: the effect of
`findIndex` followed by `splice(index, 1)` in `deleteComment`. -/
def removeFirst : List Comment → Nat → List Comment
  | [], _ => []
  | c :: rest, cid => if c.id = cid then rest else c :: removeFirst rest cid

/-- `deleteComment` (`src/script.js` lines 662-678), after the `confirm`
dialog: `comments[currentPostId].findIndex(...)` throws a `TypeError` when
the post key is absent; otherwise the matching entry is spliced out and saved
when found (`index !== -1`, modelled as the returned `true`), and nothing at
all happens when not found (returned `false`). -/
def deleteComment (pid cid : Nat) (s : St) : Except SocialError Bool × St :=
  match lookupL s.comments pid with
  | none => (.error .typeError, s)
  | some postComments =>
    match postComments.find? (fun c => c.id == cid) with
    | none => (.ok false, s)
    | some _ =>
      (.ok true, { s with comments := setL s.comments pid (removeFirst postComments cid) })

/-- One iteration of the statistics loops: the JS
`if (map[post.id]) total += map[post.id].length` — an absent entry is
skipped, a present one (arrays are truthy even when empty) contributes its
length. -/
def bumpBy {β : Type} (m : List (Nat × List β)) (acc : Nat) (p : Post) : Nat :=
  match lookupL m p.id with
  | some arr => acc + arr.length
  | none => acc

/-- The statistics block of `updateCurrentUserProfile` (`src/script.js`
lines 163-191): post count by `filter`, like and comment totals by a loop
over all posts guarded by `post.userId === currentUserId`. -/
def updateCurrentUserProfileStats (uid : Nat) (s : St) : Nat × Nat × Nat :=
  let postCount := (s.posts.filter (fun p => p.userId == uid)).length
  let likeCount := s.posts.foldl
    (fun acc p => if p.userId == uid then bumpBy s.likes acc p else acc) 0
  let commentCount := s.posts.foldl
    (fun acc p => if p.userId == uid then bumpBy s.comments acc p else acc) 0
  (postCount, likeCount, commentCount)

/-- The statistics block of `showUserProfile` (`src/script.js`
lines 805-826): filter the user's posts first, then loop over them adding
`likes[post.id].length` and `comments[post.id].length` when present. -/
def showUserProfileStats (uid : Nat) (s : St) : Nat × Nat × Nat :=
  let userPosts := s.posts.filter (fun p => p.userId == uid)
  let totalLikes := userPosts.foldl (fun acc p => bumpBy s.likes acc p) 0
  let totalComments := userPosts.foldl (fun acc p => bumpBy s.comments acc p) 0
  (userPosts.length, totalLikes, totalComments)

/-- A user action that creates a record: post creation, share, or comment,
each carrying the `Date.now()` value observed when it runs. -/
inductive Op where
  | create (u : Nat) (raw : String) (img : Option String) (now : Nat)
  | share (u oid now : Nat)
  | comment (pid u : Nat) (raw : String) (now : Nat)
deriving Repr, DecidableEq

/-- The clock value an action runs at. -/
def Op.now : Op → Nat
  | .create _ _ _ n => n
  | .share _ _ n => n
  | .comment _ _ _ n => n

/-- State transition of one action (its alert/throw result discarded, as the
persisted state is what the invariants are about). -/
def applyOp (s : St) : Op → St
  | .create u raw img now => (createPost u raw img now s).2
  | .share u oid now => (sharePost u oid now s).2
  | .comment pid u raw now => (addComment pid u raw now s).2

/-- Run a sequence of actions from a state. -/
def run (s : St) : List Op → St
  | [] => s
  | op :: rest => run (applyOp s op) rest

/-- The ids of all posts, in order. -/
def postIds (s : St) : List Nat := s.posts.map Post.id

/-- The ids of all comments stored anywhere in the comments map. -/
def commentIds : List (Nat × List Comment) → List Nat
  | [] => []
  | (_, cs) :: rest => cs.map Comment.id ++ commentIds rest

/-- Every id in the system: post ids followed by comment ids. -/
def allIds (s : St) : List Nat := postIds s ++ commentIds s.comments

/-- Clock freshness along a run: each action's `Date.now()` value differs
from every id already stored when it executes (in particular a strictly
increasing millisecond clock with at most one creation per millisecond). -/
def freshOps : St → List Op → Bool
  | _, [] => true
  | s, op :: rest => (decide (op.now ∉ allIds s)) && freshOps (applyOp s op) rest

/-- Run a sequence of `toggleLike` calls, each a `(postId, userId)` pair. -/
def runToggles (s : St) : List (Nat × Nat) → St
  | [] => s
  | (pid, u) :: rest => runToggles (toggleLike pid u s) rest

/-- Per-entry duplicate freedom of the persisted likes map: every stored like
list holds each user at most once. -/
def LikesInv (s : St) : Prop := ∀ kv ∈ s.likes, List.Nodup kv.2

instance : DecidablePred LikesInv := fun s =>
  inferInstanceAs (Decidable (∀ kv ∈ s.likes, List.Nodup kv.2))

/-- Reference aggregation, following the spec's words (§4.4): `postCount` is
the count of the user's posts, `likeCount` and `commentCount` are sums over
that user's posts of the stored list lengths, absent entries counting as
zero.  Stated independently of the two loop implementations above so that
their agreement is a theorem. -/
def refProfileStats (uid : Nat) (s : St) : Nat × Nat × Nat :=
  let mine := s.posts.filter (fun p => p.userId == uid)
  (mine.length,
   (mine.map (fun p => ((lookupL s.likes p.id).getD []).length)).sum,
   (mine.map (fun p => ((lookupL s.comments p.id).getD []).length)).sum)

/-- A concrete non-shared post, for concrete instantiations. -/
def mkPost (pid uid : Nat) (content : String) : Post :=
  { id := pid, userId := uid, content := content, image := none, timestamp := pid,
    isShared := false, originalPostId := none, originalUserId := none }

/-- A concrete shared post, for concrete instantiations. -/
def mkShare (pid uid oid ouid : Nat) (content : String) : Post :=
  { id := pid, userId := uid, content := content, image := none, timestamp := pid,
    isShared := true, originalPostId := some oid, originalUserId := some ouid }

/-- A concrete comment, for concrete instantiations. -/
def mkComment (cid uid : Nat) (text : String) : Comment :=
  { id := cid, userId := uid, text := text, timestamp := cid }

/-- The state of a fresh browser profile: all three localStorage keys empty. -/
def emptySt : St := { posts := [], likes := [], comments := [] }

/-- The post record `createPost` builds from its inputs. -/
def newPostOf (u : Nat) (raw : String) (img : Option String) (now : Nat) : Post :=
  { id := now, userId := u, content := jsTrim raw, image := img, timestamp := now,
    isShared := false, originalPostId := none, originalUserId := none }

/-- The shared post `sharePost` constructs from the found original `q`. -/
def mkSharedOf (u pid now : Nat) (q : Post) : Post :=
  { id := now, userId := u, content := q.content, image := q.image, timestamp := now,
    isShared := true, originalPostId := some pid, originalUserId := some q.userId }

/-- A concrete state with one post and two like entries, used to instantiate
the frame property of `toggleLike`. -/
def stFrame : St :=
  { posts := [mkPost 5 1 "x"], likes := [(1, [3]), (2, [3])], comments := [] }

/-- A concrete state where user 2 already likes post 1 alongside user 7,
used to instantiate the toggle involution. -/
def stInvol : St := { posts := [], likes := [(1, [2, 7])], comments := [] }

/-- A concrete state with one stored like, used to instantiate the Likes
invariant. -/
def stLikes : St := { posts := [], likes := [(1, [3])], comments := [] }

/-- A concrete state holding one post whose id equals the clock value of the
next creation. -/
def stClash : St := { posts := [mkPost 5 1 "x"], likes := [], comments := [] }

/-- A concrete state with a single post by user 1. -/
def stShareBase : St := { posts := [mkPost 5 1 "x"], likes := [], comments := [] }

/-- A concrete state where user 2 already shared user 1's post 5. -/
def stShared : St :=
  { posts := [mkShare 9 2 5 1 "x", mkPost 5 1 "x"], likes := [], comments := [] }

/-- Replacing the whole comments map of a state, as `saveComments` does. -/
def withComments (s : St) (m : List (Nat × List Comment)) : St :=
  { s with comments := m }

/-- A concrete state whose post 7 has a single comment with id 9. -/
def stEditMiss : St :=
  { posts := [], likes := [], comments := [(7, [mkComment 9 2 "old"])] }

/-- A concrete state whose post 7 has two comments, ids 9 and 11. -/
def stEdit : St :=
  { posts := [], likes := [],
    comments := [(7, [mkComment 9 2 "old", mkComment 11 3 "keep"])] }

theorem lookupL_setL_self {α : Type} (m : List (Nat × α)) (k : Nat) (v : α) :
    lookupL (setL m k v) k = some v := by
  induction m with
  | nil => simp [setL, lookupL]
  | cons kv rest ih =>
    obtain ⟨k₀, v₀⟩ := kv
    by_cases h : k₀ = k
    · simp [setL, h, lookupL]
    · simp [setL, h, lookupL, ih]

theorem lookupL_setL_ne {α : Type} (m : List (Nat × α)) (k k' : Nat) (v : α)
    (h : k' ≠ k) : lookupL (setL m k v) k' = lookupL m k' := by
  have hne : ¬ (k = k') := fun hh => h hh.symm
  induction m with
  | nil => simp [setL, lookupL, hne]
  | cons kv rest ih =>
    obtain ⟨k₀, v₀⟩ := kv
    by_cases hk : k₀ = k
    · subst hk
      simp [setL, lookupL, hne]
    · simp [setL, hk, lookupL, ih]

theorem lookupL_mem {α : Type} {m : List (Nat × α)} {k : Nat} {v : α}
    (h : lookupL m k = some v) : ∃ k₀, (k₀, v) ∈ m := by
  induction m with
  | nil => simp [lookupL] at h
  | cons kv rest ih =>
    obtain ⟨k₀, v₀⟩ := kv
    by_cases hk : k₀ = k
    · simp [lookupL, hk] at h
      exact ⟨k₀, by simp [h]⟩
    · simp [lookupL, hk] at h
      obtain ⟨k₁, hmem⟩ := ih h
      exact ⟨k₁, by simp [hmem]⟩

theorem setL_mem {α : Type} {m : List (Nat × α)} {k : Nat} {v : α} {kv : Nat × α}
    (h : kv ∈ setL m k v) : kv.2 = v ∨ kv ∈ m := by
  induction m with
  | nil =>
    simp [setL] at h
    simp [h]
  | cons kv₀ rest ih =>
    obtain ⟨k₀, v₀⟩ := kv₀
    by_cases hk : k₀ = k
    · simp [setL, hk] at h
      rcases h with h | h
      · simp [h]
      · exact Or.inr (by simp [h])
    · simp [setL, hk] at h
      rcases h with h | h
      · exact Or.inr (by simp [h])
      · rcases ih h with h' | h'
        · exact Or.inl h'
        · exact Or.inr (by simp [h'])

theorem bumpBy_eq {β : Type} (m : List (Nat × List β)) (acc : Nat) (p : Post) :
    bumpBy m acc p = acc + ((lookupL m p.id).getD []).length := by
  unfold bumpBy
  cases lookupL m p.id <;> simp

theorem foldl_guard_match {β : Type} (q : Post → Bool) (m : List (Nat × List β)) :
    ∀ (l : List Post) (a : Nat),
      l.foldl (fun acc p => if q p then bumpBy m acc p else acc) a =
        a + ((l.filter q).map (fun p => ((lookupL m p.id).getD []).length)).sum
  | [], a => by simp
  | p :: rest, a => by
    have hrest := foldl_guard_match q m rest
    simp only [List.foldl_cons, List.filter_cons]
    by_cases h : q p
    · simp only [h, if_true, List.map_cons, List.sum_cons]
      rw [hrest (bumpBy m a p), bumpBy_eq]
      omega
    · simp [h, hrest a]

theorem foldl_match_sum {β : Type} (m : List (Nat × List β)) :
    ∀ (l : List Post) (a : Nat),
      l.foldl (fun acc p => bumpBy m acc p) a =
        a + (l.map (fun p => ((lookupL m p.id).getD []).length)).sum
  | [], a => by simp
  | p :: rest, a => by
    have hrest := foldl_match_sum m rest
    simp only [List.foldl_cons, List.map_cons, List.sum_cons]
    rw [hrest (bumpBy m a p), bumpBy_eq]
    omega

/-- Claim C4: for every userId and every state of the three collections, the
two statistics computations in the source (the sidebar one of
`updateCurrentUserProfile` and the modal one of `showUserProfile`) equal the
reference aggregation: postCount counts the user's posts, likeCount and
commentCount sum the stored like-list and comment-list lengths over the
user's posts, absent entries counting as zero. -/
theorem profileStats_correct (uid : Nat) (s : St) :
    updateCurrentUserProfileStats uid s = refProfileStats uid s ∧
    showUserProfileStats uid s = refProfileStats uid s := by
  constructor
  · simp only [updateCurrentUserProfileStats, refProfileStats, Prod.mk.injEq]
    refine ⟨trivial, ?_, ?_⟩
    · simpa using foldl_guard_match (fun p : Post => p.userId == uid) s.likes s.posts 0
    · simpa using foldl_guard_match (fun p : Post => p.userId == uid) s.comments s.posts 0
  · simp only [showUserProfileStats, refProfileStats, Prod.mk.injEq]
    refine ⟨trivial, ?_, ?_⟩
    · simpa using foldl_match_sum s.likes (s.posts.filter fun p => p.userId == uid) 0
    · simpa using foldl_match_sum s.comments (s.posts.filter fun p => p.userId == uid) 0

theorem likeList_toggle_self (s : St) (pid u : Nat) :
    likeList (toggleLike pid u s) pid =
      if u ∈ likeList s pid then (likeList s pid).erase u else likeList s pid ++ [u] := by
  simp only [likeList, toggleLike, lookupL_setL_self, Option.getD_some]

/-- Claim C10: `toggleLike(postId)` modifies at most the like list stored
under `postId`: every other post's like entry, the Posts collection and the
Comments index are unchanged by the call. -/
theorem toggleLike_frame (s : St) (pid u : Nat) :
    (toggleLike pid u s).posts = s.posts ∧
    (toggleLike pid u s).comments = s.comments ∧
    ∀ pid', pid' ≠ pid →
      lookupL (toggleLike pid u s).likes pid' = lookupL s.likes pid' := by
  refine ⟨rfl, rfl, ?_⟩
  intro pid' h
  exact lookupL_setL_ne s.likes pid pid' _ h

/-- Witness for C10 at a concrete state: toggling post 1 for user 2 leaves
the posts, the comments and the like entry of post 2 untouched. -/
theorem toggleLike_frame_witness :
    (toggleLike 1 2 stFrame).posts = [mkPost 5 1 "x"] ∧
    (toggleLike 1 2 stFrame).comments = [] ∧
    lookupL (toggleLike 1 2 stFrame).likes 2 = some [3] := by
  have h := toggleLike_frame stFrame 1 2
  refine ⟨h.1, h.2.1, ?_⟩
  rw [h.2.2 2 (by decide)]
  decide

/-- Claim C3: toggling the same post twice with the same user restores both
the user's membership in the post's like list and the list's length, the
first call flipping membership and the second flipping it back.  The
hypothesis that the user occurs at most once in the stored list is the
spec's own Likes-index invariant (duplicates forbidden), established for
reachable states by `likes_nodup_invariant`. -/
theorem toggleLike_involution (s : St) (pid u : Nat)
    (h : (likeList s pid).count u ≤ 1) :
    (u ∈ likeList (toggleLike pid u s) pid ↔ u ∉ likeList s pid) ∧
    (u ∈ likeList (toggleLike pid u (toggleLike pid u s)) pid ↔ u ∈ likeList s pid) ∧
    (likeList (toggleLike pid u (toggleLike pid u s)) pid).length =
      (likeList s pid).length := by
  by_cases hm : u ∈ likeList s pid
  · have hc1 : (likeList s pid).count u = 1 :=
      Nat.le_antisymm h (List.count_pos_iff.mpr hm)
    have herase : ((likeList s pid).erase u).count u = 0 := by
      rw [List.count_erase_self, hc1]
    have hnm1 : u ∉ (likeList s pid).erase u := List.count_eq_zero.mp herase
    have h1 : likeList (toggleLike pid u s) pid = (likeList s pid).erase u := by
      rw [likeList_toggle_self, if_pos hm]
    have h2 : likeList (toggleLike pid u (toggleLike pid u s)) pid =
        (likeList s pid).erase u ++ [u] := by
      rw [likeList_toggle_self, h1, if_neg hnm1]
    refine ⟨by simp [h1, hnm1, hm], by simp [h2, hm], ?_⟩
    rw [h2, List.length_append, List.length_erase_of_mem hm]
    have hpos : 0 < (likeList s pid).length := List.length_pos.mpr (by
      intro hnil
      rw [hnil] at hm
      exact (List.not_mem_nil u) hm)
    simp only [List.length_cons, List.length_nil]
    omega
  · have h1 : likeList (toggleLike pid u s) pid = likeList s pid ++ [u] := by
      rw [likeList_toggle_self, if_neg hm]
    have hm1 : u ∈ likeList s pid ++ [u] := by simp
    have h2 : likeList (toggleLike pid u (toggleLike pid u s)) pid =
        (likeList s pid ++ [u]).erase u := by
      rw [likeList_toggle_self, h1, if_pos hm1]
    have hcnt : (likeList s pid ++ [u]).count u = 1 := by
      rw [List.count_append, List.count_eq_zero.mpr hm]
      simp
    have hnm2 : u ∉ (likeList s pid ++ [u]).erase u := by
      apply List.count_eq_zero.mp
      rw [List.count_erase_self, hcnt]
    refine ⟨by simp [h1, hm], by simp [h2, hnm2, hm], ?_⟩
    rw [h2, List.length_erase_of_mem hm1, List.length_append]
    simp

/-- Witness for C3 at a concrete state: user 2 toggling post 1 twice starting
from the list `[2, 7]`. -/
theorem toggleLike_involution_witness :
    (2 ∈ likeList (toggleLike 1 2 stInvol) 1 ↔ 2 ∉ likeList stInvol 1) ∧
    (2 ∈ likeList (toggleLike 1 2 (toggleLike 1 2 stInvol)) 1 ↔
      2 ∈ likeList stInvol 1) ∧
    (likeList (toggleLike 1 2 (toggleLike 1 2 stInvol)) 1).length =
      (likeList stInvol 1).length :=
  toggleLike_involution stInvol 1 2 (by decide)

theorem likesInv_likeList {s : St} (h : LikesInv s) (pid : Nat) :
    (likeList s pid).Nodup := by
  unfold likeList
  cases hl : lookupL s.likes pid with
  | none => simp
  | some l =>
    obtain ⟨k₀, hmem⟩ := lookupL_mem hl
    simpa using h (k₀, l) hmem

theorem toggleLike_preserves_likesInv {s : St} (pid u : Nat) (h : LikesInv s) :
    LikesInv (toggleLike pid u s) := by
  intro kv hkv
  have hcur : (likeList s pid).Nodup := likesInv_likeList h pid
  rcases setL_mem hkv with hv | hv
  · rw [hv]
    by_cases hm : u ∈ likeList s pid
    · simp only [likeList] at hm hcur
      simp [hm, hcur.erase u]
    · simp only [likeList] at hm hcur
      simp only [hm, if_false]
      simp [List.nodup_append, hcur, hm]
  · exact h kv hv

/-- Claim C8: the Likes index never contains duplicates: starting from any
state whose stored like lists are duplicate-free, any sequence of
`toggleLike` calls, in any order, preserves that invariant, and every
post's like list (absent entries reading as empty) is duplicate-free
afterwards. -/
theorem likes_nodup_invariant (s : St) (calls : List (Nat × Nat)) (h : LikesInv s) :
    LikesInv (runToggles s calls) ∧
    ∀ pid, (likeList (runToggles s calls) pid).Nodup := by
  induction calls generalizing s with
  | nil =>
    exact ⟨h, fun pid => likesInv_likeList h pid⟩
  | cons c rest ih =>
    obtain ⟨pid, u⟩ := c
    exact ih (toggleLike pid u s) (toggleLike_preserves_likesInv pid u h)

/-- Witness for C8: four toggles (including a repeat) starting from a state
with one stored like. -/
theorem likes_nodup_invariant_witness :
    LikesInv (runToggles stLikes [(1, 2), (1, 3), (1, 2), (2, 2)]) ∧
    (likeList (runToggles stLikes [(1, 2), (1, 3), (1, 2), (2, 2)]) 1).Nodup := by
  have h := likes_nodup_invariant stLikes [(1, 2), (1, 3), (1, 2), (2, 2)] (by decide)
  exact ⟨h.1, h.2 1⟩

/-- Counterexample to claim C1 as stated: with an existing post of id 5 and a
creation whose `Date.now()` is also 5 (two creations inside the same
millisecond), `createPost` succeeds and prepends a post whose id equals the
prior post's id — the id of the new post is not distinct from every prior
post's id, since the source takes the raw clock value with no uniqueness
check. -/
theorem createPost_id_not_fresh_cex :
    (createPost 1 "hi" none 5 stClash).1 = .ok (mkPost 5 1 "hi") ∧
    (createPost 1 "hi" none 5 stClash).2.posts.map Post.id = [5, 5] ∧
    ¬ ((createPost 1 "hi" none 5 stClash).2.posts.map Post.id).Nodup := by decide

/-- Claim C1 (amended): `createPost` succeeds iff the trimmed content is
non-empty or an image is present; on failure it signals a validation error
and the Posts collection is unchanged; on success the new Post carries the
clock value as id and is prepended, becoming index 0 of `listAll`; its id is
distinct from every prior post's id whenever the clock value differs from
all stored post ids (the code takes no measure against clock collisions). -/
theorem createPost_spec (u : Nat) (raw : String) (img : Option String) (now : Nat)
    (s : St) :
    ((createPost u raw img now s).1 = .error .validationError ↔
      (jsTrim raw = "" ∧ img = none)) ∧
    (jsTrim raw = "" ∧ img = none → (createPost u raw img now s).2 = s) ∧
    (jsTrim raw ≠ "" ∨ img ≠ none →
      ∃ p, (createPost u raw img now s).1 = .ok p ∧
        listAll (createPost u raw img now s).2 = p :: listAll s ∧
        p.id = now ∧ p.userId = u ∧ p.content = jsTrim raw ∧ p.image = img ∧
        p.isShared = false ∧
        (now ∉ postIds s → ∀ q ∈ s.posts, p.id ≠ q.id)) := by
  by_cases h : jsTrim raw = "" ∧ img = none
  · refine ⟨by simp [createPost, h], fun _ => by simp [createPost, h], fun hor => ?_⟩
    rcases hor with h1 | h2
    · exact absurd h.1 h1
    · exact absurd h.2 h2
  · refine ⟨by simp [createPost, h], fun hh => absurd hh h, fun hor => ?_⟩
    refine ⟨newPostOf u raw img now,
      by simp [createPost, newPostOf, h], by simp [createPost, newPostOf, h, listAll],
      rfl, rfl, rfl, rfl, rfl, ?_⟩
    intro hnow q hq heq
    apply hnow
    simp only [newPostOf] at heq
    rw [postIds, heq]
    exact List.mem_map_of_mem Post.id hq

/-- Witness for C1 (amended): an empty creation fails and changes nothing; a
creation with content succeeds and lands at index 0. -/
theorem createPost_spec_witness :
    ((createPost 1 "  " none 3 emptySt).1 = .error .validationError) ∧
    (createPost 1 "  " none 3 emptySt).2 = emptySt ∧
    (∃ p, (createPost 2 "hello" none 4 emptySt).1 = .ok p ∧
      listAll (createPost 2 "hello" none 4 emptySt).2 = p :: listAll emptySt ∧
      p.id = 4 ∧ p.userId = 2 ∧ p.content = jsTrim "hello" ∧ p.image = none ∧
      p.isShared = false ∧
      (4 ∉ postIds emptySt → ∀ q ∈ emptySt.posts, p.id ≠ q.id)) := by
  refine ⟨?_, ?_, ?_⟩
  · exact (createPost_spec 1 "  " none 3 emptySt).1.mpr (by decide)
  · exact (createPost_spec 1 "  " none 3 emptySt).2.1 (by decide)
  · exact (createPost_spec 2 "hello" none 4 emptySt).2.2 (Or.inl (by decide))

theorem sharePost_notFound (s : St) (u pid now : Nat)
    (hf : s.posts.find? (fun p => p.id == pid) = none) :
    sharePost u pid now s = (.error .notFound, s) := by
  unfold sharePost
  rw [hf]

theorem sharePost_self (s : St) (u pid now : Nat) (q : Post)
    (hf : s.posts.find? (fun p => p.id == pid) = some q) (hqu : q.userId = u) :
    sharePost u pid now s = (.error .invalidOperation, s) := by
  unfold sharePost
  rw [hf]
  simp [hqu]

theorem sharePost_already (s : St) (u pid now : Nat) (q : Post)
    (hf : s.posts.find? (fun p => p.id == pid) = some q) (hqu : q.userId ≠ u)
    (hyes : s.posts.any (isShareBy u pid) = true) :
    sharePost u pid now s = (.error .alreadyShared, s) := by
  unfold sharePost
  rw [hf]
  simp [hqu, hyes]

theorem sharePost_ok (s : St) (u pid now : Nat) (q : Post)
    (hf : s.posts.find? (fun p => p.id == pid) = some q) (hqu : q.userId ≠ u)
    (hno : s.posts.any (isShareBy u pid) = false) :
    sharePost u pid now s =
      (.ok (mkSharedOf u pid now q),
        { s with posts := mkSharedOf u pid now q :: s.posts }) := by
  unfold sharePost
  rw [hf]
  simp [hqu, hno, mkSharedOf]

/-- Claim C2: `sharePost` fails with NotFound when no post with the given id
exists, with InvalidOperation when the found post belongs to the sharing
user, and with AlreadyShared when that user already has a shared copy of it;
each failure leaves the state unchanged.  Sharing twice in sequence (from a
state where the first share is allowed, with the share's fresh id distinct
from the target id) has the first call succeed, the second fail with
AlreadyShared, and leaves exactly one shared post for the pair. -/
theorem sharePost_spec (s : St) (u pid now₁ now₂ : Nat) :
    (s.posts.find? (fun p => p.id == pid) = none →
      sharePost u pid now₁ s = (.error .notFound, s)) ∧
    (∀ q, s.posts.find? (fun p => p.id == pid) = some q → q.userId = u →
      sharePost u pid now₁ s = (.error .invalidOperation, s)) ∧
    (∀ q, s.posts.find? (fun p => p.id == pid) = some q → q.userId ≠ u →
      s.posts.any (isShareBy u pid) = true →
      sharePost u pid now₁ s = (.error .alreadyShared, s)) ∧
    (∀ q, s.posts.find? (fun p => p.id == pid) = some q → q.userId ≠ u →
      s.posts.any (isShareBy u pid) = false → now₁ ≠ pid →
      (sharePost u pid now₁ s).1 = .ok (mkSharedOf u pid now₁ q) ∧
      sharePost u pid now₂ (sharePost u pid now₁ s).2 =
        (.error .alreadyShared, (sharePost u pid now₁ s).2) ∧
      ((sharePost u pid now₁ s).2.posts.filter (isShareBy u pid)).length = 1) := by
  refine ⟨fun hf => sharePost_notFound s u pid now₁ hf,
    fun q hf hqu => sharePost_self s u pid now₁ q hf hqu,
    fun q hf hqu hyes => sharePost_already s u pid now₁ q hf hqu hyes,
    fun q hf hqu hno hnid => ?_⟩
  have h1 := sharePost_ok s u pid now₁ q hf hqu hno
  have hsp : isShareBy u pid (mkSharedOf u pid now₁ q) = true := by
    simp [isShareBy, mkSharedOf]
  have hfind₂ : (mkSharedOf u pid now₁ q :: s.posts).find? (fun p => p.id == pid) =
      some q := by
    rw [List.find?_cons_of_neg, hf]
    simp [mkSharedOf, hnid]
  have hany₂ : (mkSharedOf u pid now₁ q :: s.posts).any (isShareBy u pid) = true := by
    simp [hsp]
  have hnil : s.posts.filter (isShareBy u pid) = [] :=
    List.filter_eq_nil_iff.mpr (List.any_eq_false.mp hno)
  refine ⟨by rw [h1], ?_, ?_⟩
  · rw [h1]
    exact sharePost_already _ u pid now₂ q hfind₂ hqu hany₂
  · rw [h1]
    show ((mkSharedOf u pid now₁ q :: s.posts).filter (isShareBy u pid)).length = 1
    rw [List.filter_cons_of_pos hsp, hnil]
    rfl

/-- Witness for C2: all four branches at concrete states — missing post,
self-share, duplicate share, and the share-twice sequence. -/
theorem sharePost_spec_witness :
    sharePost 2 7 9 emptySt = (.error .notFound, emptySt) ∧
    sharePost 1 5 9 stShareBase = (.error .invalidOperation, stShareBase) ∧
    sharePost 2 5 13 stShared = (.error .alreadyShared, stShared) ∧
    ((sharePost 2 5 9 stShareBase).1 = .ok (mkSharedOf 2 5 9 (mkPost 5 1 "x")) ∧
      sharePost 2 5 13 (sharePost 2 5 9 stShareBase).2 =
        (.error .alreadyShared, (sharePost 2 5 9 stShareBase).2) ∧
      ((sharePost 2 5 9 stShareBase).2.posts.filter (isShareBy 2 5)).length = 1) := by
  refine ⟨?_, ?_, ?_, ?_⟩
  · exact (sharePost_spec emptySt 2 7 9 9).1 (by decide)
  · exact (sharePost_spec stShareBase 1 5 9 9).2.1 (mkPost 5 1 "x") (by decide) (by decide)
  · exact (sharePost_spec stShared 2 5 13 13).2.2.1 (mkPost 5 1 "x") (by decide)
      (by decide) (by decide)
  · exact (sharePost_spec stShareBase 2 5 9 13).2.2.2 (mkPost 5 1 "x") (by decide)
      (by decide) (by decide) (by decide)

/-- Claim C9: sharing an already-shared post is not forbidden: when the found
post `S` is itself a share, the sharer is not its author and has no existing
share of it, `sharePost` succeeds, and the new post's `originalPostId` is
`S.id` and its `originalUserId` is `S.userId` — the intermediate sharer, not
the root original author. -/
theorem sharePost_of_shared (s : St) (u now : Nat) (S : Post)
    (hf : s.posts.find? (fun p => p.id == S.id) = some S)
    (hsh : S.isShared = true)
    (hne : S.userId ≠ u)
    (hno : s.posts.any (isShareBy u S.id) = false) :
    ∃ p, (sharePost u S.id now s).1 = .ok p ∧
      (sharePost u S.id now s).2.posts = p :: s.posts ∧
      p.originalPostId = some S.id ∧ p.originalUserId = some S.userId ∧
      p.content = S.content ∧ p.image = S.image ∧ p.isShared = true ∧
      p.id = now ∧ p.userId = u := by
  have h1 := sharePost_ok s u S.id now S hf hne hno
  exact ⟨mkSharedOf u S.id now S, by rw [h1], by rw [h1], rfl, rfl, rfl, rfl, rfl,
    rfl, rfl⟩

/-- Witness for C9: user 3 shares user 2's shared copy (post 9) of user 1's
post 5; the result points at post 9 and user 2, not at the root post 5's
author. -/
theorem sharePost_of_shared_witness :
    ∃ p, (sharePost 3 9 20 stShared).1 = .ok p ∧
      (sharePost 3 9 20 stShared).2.posts = p :: stShared.posts ∧
      p.originalPostId = some 9 ∧ p.originalUserId = some 2 ∧
      p.content = "x" ∧ p.image = none ∧ p.isShared = true ∧
      p.id = 20 ∧ p.userId = 3 :=
  sharePost_of_shared stShared 3 20 (mkShare 9 2 5 1 "x") (by decide) (by decide)
    (by decide) (by decide)

theorem find?_comment_decomp (l : List Comment) (cid : Nat) (c : Comment)
    (h : l.find? (fun x => x.id == cid) = some c) :
    c.id = cid ∧ ∃ l₁ l₂, l = l₁ ++ c :: l₂ ∧ (∀ x ∈ l₁, x.id ≠ cid) ∧
      (∀ t, editFirst l cid t = l₁ ++ { c with text := t } :: l₂) ∧
      removeFirst l cid = l₁ ++ l₂ := by
  induction l with
  | nil => simp [List.find?] at h
  | cons x rest ih =>
    by_cases hx : x.id = cid
    · rw [List.find?_cons_of_pos _ (by simp [hx])] at h
      obtain rfl : x = c := Option.some.inj h
      refine ⟨hx, [], rest, rfl, by simp, fun t => ?_, ?_⟩
      · simp [editFirst, hx]
      · simp [removeFirst, hx]
    · rw [List.find?_cons_of_neg _ (by simp [hx])] at h
      obtain ⟨hcid, l₁, l₂, hsplit, hl₁, hedit, hrem⟩ := ih h
      refine ⟨hcid, x :: l₁, l₂, by simp [hsplit], ?_, fun t => ?_, ?_⟩
      · intro y hy
        rcases List.mem_cons.mp hy with rfl | hy'
        · exact hx
        · exact hl₁ y hy'
      · simp [editFirst, hx, hedit t]
      · simp [removeFirst, hx, hrem]

/-- Counterexample to claim C5 as stated: editing a comment id (11) that does
not exist under the post fails with the modelled uncaught `TypeError`
(setting `.text` of `undefined`), not with a `NotFound` error — the source
has no existence check in `saveEditComment`. -/
theorem saveEditComment_notFound_cex :
    saveEditComment 7 11 "new" stEditMiss = (.error .typeError, stEditMiss) ∧
    (saveEditComment 7 11 "new" stEditMiss).1 ≠ .error .notFound := by decide

/-- Claim C5 (amended): comment edit fails with ValidationError when the
trimmed text is empty (checked first); it fails by an uncaught `TypeError`
(not a NotFound alert), leaving the state unchanged, when the post key or
the comment id is absent; on success only the text of the first comment with
the given id changes — its id, userId and timestamp, every other comment,
and every other post's comment list are unchanged. -/
theorem saveEditComment_spec (pid cid : Nat) (raw : String) (s : St) :
    (jsTrim raw = "" → saveEditComment pid cid raw s = (.error .validationError, s)) ∧
    (jsTrim raw ≠ "" → lookupL s.comments pid = none →
      saveEditComment pid cid raw s = (.error .typeError, s)) ∧
    (jsTrim raw ≠ "" → ∀ l, lookupL s.comments pid = some l →
      l.find? (fun x => x.id == cid) = none →
      saveEditComment pid cid raw s = (.error .typeError, s)) ∧
    (jsTrim raw ≠ "" → ∀ l c, lookupL s.comments pid = some l →
      l.find? (fun x => x.id == cid) = some c →
      c.id = cid ∧ ∃ l₁ l₂, l = l₁ ++ c :: l₂ ∧ (∀ x ∈ l₁, x.id ≠ cid) ∧
        saveEditComment pid cid raw s = (.ok (),
          withComments s (setL s.comments pid (l₁ ++ { c with text := jsTrim raw } :: l₂))) ∧
        ∀ pid', pid' ≠ pid →
          lookupL (saveEditComment pid cid raw s).2.comments pid' =
            lookupL s.comments pid') := by
  refine ⟨fun he => by simp [saveEditComment, he], fun he hl => by
    simp [saveEditComment, he, hl], fun he l hl hf => by
    simp [saveEditComment, he, hl, hf], fun he l c hl hf => ?_⟩
  obtain ⟨hcid, l₁, l₂, hsplit, hl₁, hedit, _⟩ := find?_comment_decomp l cid c hf
  have heq : saveEditComment pid cid raw s =
      (.ok (), withComments s (setL s.comments pid (editFirst l cid (jsTrim raw)))) := by
    simp [saveEditComment, he, hl, hf, withComments]
  refine ⟨hcid, l₁, l₂, hsplit, hl₁, ?_, ?_⟩
  · rw [heq, hedit (jsTrim raw)]
  · intro pid' hp
    rw [heq]
    exact lookupL_setL_ne s.comments pid pid' _ hp

/-- Witness for C5 (amended): at the concrete two-comment state, an
empty-text edit fails with ValidationError and editing comment 9 succeeds. -/
theorem saveEditComment_spec_witness :
    saveEditComment 7 9 "   " stEdit = (.error .validationError, stEdit) ∧
    (9 : Nat) = 9 ∧ (∃ l₁ l₂, [mkComment 9 2 "old", mkComment 11 3 "keep"] =
      l₁ ++ mkComment 9 2 "old" :: l₂ ∧ (∀ x ∈ l₁, x.id ≠ 9) ∧
      saveEditComment 7 9 "new" stEdit = (.ok (),
        withComments stEdit (setL stEdit.comments 7
          (l₁ ++ { mkComment 9 2 "old" with text := jsTrim "new" } :: l₂))) ∧
      ∀ pid', pid' ≠ 7 →
        lookupL (saveEditComment 7 9 "new" stEdit).2.comments pid' =
          lookupL stEdit.comments pid') := by
  refine ⟨?_, ?_⟩
  · exact (saveEditComment_spec 7 9 "   " stEdit).1 (by decide)
  · exact (saveEditComment_spec 7 9 "new" stEdit).2.2.2 (by decide)
      [mkComment 9 2 "old", mkComment 11 3 "keep"] (mkComment 9 2 "old")
      (by decide) (by decide)

/-- Counterexample to claim C6 as stated: deleting under a post id with no
comment entry at all does not complete and return false — the source throws
an uncaught `TypeError` (`findIndex` of `undefined`). -/
theorem deleteComment_missing_key_cex :
    deleteComment 3 9 emptySt = (.error .typeError, emptySt) ∧
    (deleteComment 3 9 emptySt).1 ≠ .ok false := by decide

/-- Claim C6 (amended): when the post has a comment list, delete removes
exactly the first comment with the given id and signals a removal, or leaves
everything unchanged and signals none when no comment matches; the persisted
state is unchanged except for a successful removal, and other posts' comment
lists are untouched.  When the post has no comment list at all the operation
fails by an uncaught `TypeError` (state unchanged) instead of completing. -/
theorem deleteComment_spec (pid cid : Nat) (s : St) :
    (lookupL s.comments pid = none →
      deleteComment pid cid s = (.error .typeError, s)) ∧
    (∀ l, lookupL s.comments pid = some l →
      l.find? (fun x => x.id == cid) = none →
      deleteComment pid cid s = (.ok false, s)) ∧
    (∀ l c, lookupL s.comments pid = some l →
      l.find? (fun x => x.id == cid) = some c →
      c.id = cid ∧ ∃ l₁ l₂, l = l₁ ++ c :: l₂ ∧ (∀ x ∈ l₁, x.id ≠ cid) ∧
        deleteComment pid cid s = (.ok true,
          withComments s (setL s.comments pid (l₁ ++ l₂))) ∧
        ∀ pid', pid' ≠ pid →
          lookupL (deleteComment pid cid s).2.comments pid' =
            lookupL s.comments pid') := by
  refine ⟨fun hl => by simp [deleteComment, hl], fun l hl hf => by
    simp [deleteComment, hl, hf], fun l c hl hf => ?_⟩
  obtain ⟨hcid, l₁, l₂, hsplit, hl₁, _, hrem⟩ := find?_comment_decomp l cid c hf
  have heq : deleteComment pid cid s =
      (.ok true, withComments s (setL s.comments pid (removeFirst l cid))) := by
    simp [deleteComment, hl, hf, withComments]
  refine ⟨hcid, l₁, l₂, hsplit, hl₁, ?_, ?_⟩
  · rw [heq, hrem]
  · intro pid' hp
    rw [heq]
    exact lookupL_setL_ne s.comments pid pid' _ hp

/-- Witness for C6 (amended): at the concrete two-comment state, deleting a
missing comment id returns false and changes nothing; deleting comment 9
removes exactly it. -/
theorem deleteComment_spec_witness :
    deleteComment 7 99 stEdit = (.ok false, stEdit) ∧
    (9 : Nat) = 9 ∧ (∃ l₁ l₂, [mkComment 9 2 "old", mkComment 11 3 "keep"] =
      l₁ ++ mkComment 9 2 "old" :: l₂ ∧ (∀ x ∈ l₁, x.id ≠ 9) ∧
      deleteComment 7 9 stEdit = (.ok true,
        withComments stEdit (setL stEdit.comments 7 (l₁ ++ l₂))) ∧
      ∀ pid', pid' ≠ 7 →
        lookupL (deleteComment 7 9 stEdit).2.comments pid' =
          lookupL stEdit.comments pid') := by
  refine ⟨?_, ?_⟩
  · exact (deleteComment_spec 7 99 stEdit).2.1
      [mkComment 9 2 "old", mkComment 11 3 "keep"] (by decide) (by decide)
  · exact (deleteComment_spec 7 9 stEdit).2.2
      [mkComment 9 2 "old", mkComment 11 3 "keep"] (mkComment 9 2 "old")
      (by decide) (by decide)

theorem allIds_cons_post (s : St) (p : Post) :
    allIds { s with posts := p :: s.posts } = p.id :: allIds s := by
  simp [allIds, postIds]

theorem commentIds_setL_append (m : List (Nat × List Comment)) (pid : Nat)
    (c : Comment) :
    List.Perm (commentIds (setL m pid (((lookupL m pid).getD []) ++ [c])))
      (c.id :: commentIds m) := by
  induction m with
  | nil =>
    simp [lookupL, setL, commentIds]
  | cons kv rest ih =>
    obtain ⟨k, cs⟩ := kv
    by_cases hk : k = pid
    · subst hk
      simp only [lookupL, if_pos rfl, Option.getD_some, setL, commentIds,
        List.map_append, List.append_assoc, List.map_cons, List.map_nil,
        List.singleton_append]
      exact List.perm_middle
    · simp only [lookupL, hk, if_false, setL, commentIds, ite_false]
      exact (List.Perm.append_left _ ih).trans List.perm_middle

theorem applyOp_allIds_nodup {s : St} (op : Op) (h1 : (allIds s).Nodup)
    (h2 : op.now ∉ allIds s) : (allIds (applyOp s op)).Nodup := by
  cases op with
  | create u raw img now =>
    simp only [Op.now] at h2
    simp only [applyOp, createPost]
    by_cases hv : jsTrim raw = "" ∧ img = none
    · simpa [hv] using h1
    · simp only [hv, if_false]
      rw [allIds_cons_post]
      exact List.nodup_cons.mpr ⟨h2, h1⟩
  | share u oid now =>
    simp only [Op.now] at h2
    simp only [applyOp]
    cases hf : s.posts.find? (fun p => p.id == oid) with
    | none => rw [sharePost_notFound s u oid now hf]; exact h1
    | some q =>
      by_cases hqu : q.userId = u
      · rw [sharePost_self s u oid now q hf hqu]; exact h1
      · cases hae : s.posts.any (isShareBy u oid) with
        | true => rw [sharePost_already s u oid now q hf hqu hae]; exact h1
        | false =>
          rw [sharePost_ok s u oid now q hf hqu hae]
          show (allIds { s with posts := mkSharedOf u oid now q :: s.posts }).Nodup
          rw [allIds_cons_post]
          exact List.nodup_cons.mpr ⟨h2, h1⟩
  | comment pid u raw now =>
    simp only [Op.now] at h2
    simp only [applyOp, addComment]
    by_cases hv : jsTrim raw = ""
    · simpa [hv] using h1
    · simp only [hv, if_false]
      have h3 := commentIds_setL_append s.comments pid
        { id := now, userId := u, text := jsTrim raw, timestamp := now }
      have hperm : List.Perm
          (allIds (withComments s (setL s.comments pid
            (((lookupL s.comments pid).getD []) ++
              [{ id := now, userId := u, text := jsTrim raw, timestamp := now }]))))
          (now :: allIds s) := by
        simp only [withComments, allIds, postIds]
        exact (List.Perm.append_left _ h3).trans List.perm_middle
      exact hperm.nodup_iff.mpr (List.nodup_cons.mpr ⟨h2, h1⟩)

theorem freshOps_cons {s : St} {op : Op} {rest : List Op}
    (h : freshOps s (op :: rest) = true) :
    op.now ∉ allIds s ∧ freshOps (applyOp s op) rest = true := by
  simpa [freshOps, Bool.and_eq_true, decide_eq_true_eq] using h

/-- Counterexample to claim C7 as stated: two `createPost` calls inside the
same millisecond (`Date.now()` returning 100 both times) produce two posts
with the same id — post-id uniqueness is not preserved under same-millisecond
creation, since ids are raw clock values with no collision check. -/
theorem id_collision_cex :
    postIds (run emptySt [.create 1 "a" none 100, .create 1 "b" none 100]) =
      [100, 100] ∧
    ¬ (postIds (run emptySt [.create 1 "a" none 100, .create 1 "b" none 100])).Nodup := by
  decide

/-- Claim C7 (amended): after any sequence of `createPost`, `sharePost` and
`addComment` operations in which every operation's creation-clock value
differs from all ids already stored when it runs (in particular a strictly
increasing millisecond clock with at most one creation per millisecond), all
ids in the system remain pairwise distinct: post ids are unique within the
Posts collection and comment ids are unique across the whole system. -/
theorem ids_nodup_of_fresh (s : St) (ops : List Op) (h1 : (allIds s).Nodup)
    (h2 : freshOps s ops = true) :
    (allIds (run s ops)).Nodup ∧ (postIds (run s ops)).Nodup ∧
    (commentIds (run s ops).comments).Nodup := by
  induction ops generalizing s with
  | nil =>
    exact ⟨h1, List.Nodup.of_append_left h1, List.Nodup.of_append_right h1⟩
  | cons op rest ih =>
    obtain ⟨hnow, hrest⟩ := freshOps_cons h2
    exact ih (applyOp s op) (applyOp_allIds_nodup op h1 hnow) hrest

/-- Witness for C7 (amended): a create, a share of it and a comment on it at
strictly increasing clock values 10, 20, 30 keep all ids distinct. -/
theorem ids_nodup_of_fresh_witness :
    (allIds (run emptySt
      [.create 1 "hello" none 10, .share 2 10 20, .comment 10 2 "nice" 30])).Nodup ∧
    (postIds (run emptySt
      [.create 1 "hello" none 10, .share 2 10 20, .comment 10 2 "nice" 30])).Nodup ∧
    (commentIds (run emptySt
      [.create 1 "hello" none 10, .share 2 10 20, .comment 10 2 "nice" 30]).comments).Nodup :=
  ids_nodup_of_fresh emptySt
    [.create 1 "hello" none 10, .share 2 10 20, .comment 10 2 "nice" 30]
    (by decide) (by decide)

end Social
